import Mathlib

/-!
Shallow embedding of `src/diff.py`.

The program is:

    def main():
        with open("out1") as file:
            out1set = set(file.read().splitlines())
        with open("out2") as file:
            out2set = set(file.read().splitlines())
        diff = out1set.symmetric_difference(out2set)
        print("out1 - out2:", out1set - out2set)
        print("out2 - out1:", out2set - out1set)
    main()

File contents are modelled as decoded text (`String`).  Reading a file in
text mode performs universal-newline translation (CRLF and CR become LF)
and `str.splitlines` then splits on LF together with the other Unicode
line terminators; since `str.splitlines` itself already treats CR, CRLF
and LF as single terminators, translation followed by `splitlines` equals
`splitlines` applied to the untranslated text, and we model the composite
directly as `splitlines` with Python's documented terminator set
(LF, CR, CRLF, VT, FF, FS, GS, RS, NEL, LS, PS).

The filesystem is a partial map from names to contents (`none` = the file
is absent or unreadable).  Standard output is the list of printed records,
each a label together with the printed set (the textual rendering of a set
is not part of the contract, so a record is `String × Finset String`).
A failed open raises, so `main` returns `Except`: on an error nothing has
been printed, both reads occurring before the first `print` in the source.
-/

namespace DiffPy

/-- The characters Python `str.splitlines` treats as line terminators:
LF, CR, VT, FF, FS, GS, RS, NEL, LS, PS (CRLF is handled as a pair). -/
def isLineBreak (c : Char) : Bool :=
  c == '\n' || c == '\r' || c == '\x0b' || c == '\x0c' ||
  c == '\x1c' || c == '\x1d' || c == '\x1e' || c == '\x85' ||
  c == '\u2028' || c == '\u2029'

/-- One pass over the characters.  `acc` holds the current line reversed;
`afterCR` records that the previous character was a CR whose line was
already emitted, so that a following LF is absorbed (CRLF is one
terminator).  A final line is emitted only if nonempty, matching
`str.splitlines` (no trailing empty line from a final terminator). -/
def splitlinesAux : List Char → List Char → Bool → List String
  | [], acc, _ => if acc.isEmpty then [] else [String.mk acc.reverse]
  | c :: rest, acc, afterCR =>
    if afterCR && c == '\n' then
      splitlinesAux rest acc false
    else if isLineBreak c then
      String.mk acc.reverse :: splitlinesAux rest [] (c == '\r')
    else
      splitlinesAux rest (c :: acc) false

/-- Python `str.splitlines` (composed with text-mode newline translation,
see the header comment). -/
def splitlines (s : String) : List String :=
  splitlinesAux s.data [] false

/-- `set(contents.splitlines())`: the LineSet of a file's contents. -/
def lineSet (s : String) : Finset String :=
  (splitlines s).toFinset

/-- The single error kind: a required input file is missing or cannot be
read as text (Python raises `OSError`/`UnicodeDecodeError` from `open` or
`read`; the spec calls this `FileAccessError`). -/
inductive FileAccessError where
  | cannotRead : String → FileAccessError
deriving DecidableEq

/-- `main` of `diff.py` over a filesystem `fs` mapping file names to
contents (`none`: the open/read fails).  The result is the list of printed
records, or the error that aborted the run before anything was printed. -/
def main (fs : String → Option String) :
    Except FileAccessError (List (String × Finset String)) :=
  match fs "out1" with
  | none => Except.error (FileAccessError.cannotRead "out1")
  | some c1 =>
    match fs "out2" with
    | none => Except.error (FileAccessError.cannotRead "out2")
    | some c2 =>
      let out1set := lineSet c1
      let out2set := lineSet c2
      let diff := (out1set \ out2set) ∪ (out2set \ out1set)
      Except.ok [("out1 - out2:", out1set \ out2set),
                 ("out2 - out1:", out2set \ out1set)]

/-- `main` with the dead `diff = out1set.symmetric_difference(out2set)`
computation removed (for the dead-code claim). -/
def mainNoDiff (fs : String → Option String) :
    Except FileAccessError (List (String × Finset String)) :=
  match fs "out1" with
  | none => Except.error (FileAccessError.cannotRead "out1")
  | some c1 =>
    match fs "out2" with
    | none => Except.error (FileAccessError.cannotRead "out2")
    | some c2 =>
      let out1set := lineSet c1
      let out2set := lineSet c2
      Except.ok [("out1 - out2:", out1set \ out2set),
                 ("out2 - out1:", out2set \ out1set)]

/-- The filesystem that holds exactly the two input files. -/
def mkFs (c1 c2 : String) : String → Option String :=
  fun name => if name = "out1" then some c1 else
    if name = "out2" then some c2 else none

/-- What a run printed: the records on success, nothing on an error. -/
def outputLines :
    Except FileAccessError (List (String × Finset String)) →
      List (String × Finset String)
  | Except.error _ => []
  | Except.ok ls => ls

/-- A string free of line-terminator characters (a well-formed line). -/
def breakFree (s : String) : Bool :=
  s.data.all (fun ch => !isLineBreak ch)

/-- A file holding the given lines, each terminated by a newline. -/
def joinLines : List String → String
  | [] => ""
  | l :: ls => l ++ "\n" ++ joinLines ls

/- Sanity checks of `splitlines` against the documented behaviour of
Python `str.splitlines` on text-mode contents. -/

example : splitlines "" = [] := by decide
example : splitlines "a" = ["a"] := by decide
example : splitlines "a\n" = ["a"] := by decide
example : splitlines "a\n\n" = ["a", ""] := by decide
example : splitlines "\n" = [""] := by decide
example : splitlines "a\r\nb" = ["a", "b"] := by decide
example : splitlines "a\rb" = ["a", "b"] := by decide
example : splitlines "\r\n" = [""] := by decide
example : splitlines "a\x0bb" = ["a", "b"] := by decide
example : splitlines "a\nb\nc" = ["a", "b", "c"] := by decide
example : joinLines ["a", "b"] = "a\nb\n" := by decide
example : lineSet "a\na\nb" = {"a", "b"} := by decide

/-! Core lemmas about `splitlines`. -/

lemma data_mk (cs : List Char) : (String.mk cs).data = cs := rfl

lemma data_append (s t : String) : (s ++ t).data = s.data ++ t.data := rfl

lemma LF_break : isLineBreak '\n' = true := by decide

lemma LF_not_CR : ('\n' == '\r') = false := by decide

lemma not_break_ne_LF {c : Char} (hc : isLineBreak c = false) :
    (c == '\n') = false :=
  beq_eq_false_iff_ne.mpr (fun e => absurd (e ▸ hc) (by decide))

/-- Splitting a break-free line followed by a newline emits exactly that
line (prefixed with whatever the accumulator held) and continues. -/
lemma splitlinesAux_line (l rest : List Char)
    (h : ∀ ch ∈ l, isLineBreak ch = false) : ∀ acc,
    splitlinesAux (l ++ '\n' :: rest) acc false =
      String.mk (acc.reverse ++ l) :: splitlinesAux rest [] false := by
  induction l with
  | nil =>
    intro acc
    simp [splitlinesAux, LF_break, LF_not_CR]
  | cons c l ih =>
    intro acc
    have hc : isLineBreak c = false := h c (List.mem_cons_self c l)
    have step : splitlinesAux ((c :: l) ++ '\n' :: rest) acc false =
        splitlinesAux (l ++ '\n' :: rest) (c :: acc) false := by
      simp [splitlinesAux, hc, not_break_ne_LF hc]
    rw [step, ih (fun ch hch => h ch (List.mem_cons_of_mem c hch)) (c :: acc)]
    simp

/-- Splitting the newline-terminated join of break-free lines recovers
exactly those lines. -/
lemma splitlines_joinLines (ls : List String)
    (h : ∀ l ∈ ls, breakFree l = true) :
    splitlines (joinLines ls) = ls := by
  induction ls with
  | nil => rfl
  | cons l ls ih =>
    have hdata : (joinLines (l :: ls)).data =
        l.data ++ '\n' :: (joinLines ls).data := by
      show (l ++ "\n" ++ joinLines ls).data = _
      simp [data_append]
    have hbf : ∀ ch ∈ l.data, isLineBreak ch = false := by
      have := h l (List.mem_cons_self l ls)
      simpa [breakFree, List.all_eq_true] using this
    unfold splitlines
    rw [hdata, splitlinesAux_line l.data (joinLines ls).data hbf []]
    rw [show splitlinesAux (joinLines ls).data [] false = splitlines (joinLines ls) from rfl]
    rw [ih (fun x hx => h x (List.mem_cons_of_mem l hx))]
    simp

/-- The LineSet of a newline-terminated file is the finite set of its
lines. -/
lemma lineSet_joinLines (ls : List String)
    (h : ∀ l ∈ ls, breakFree l = true) :
    lineSet (joinLines ls) = ls.toFinset := by
  unfold lineSet
  rw [splitlines_joinLines ls h]

/-- Concatenating the split lines gives back the contents with exactly its
line-terminator characters removed: boundaries are precisely the
terminator characters. -/
lemma splitlinesAux_flat (cs : List Char) : ∀ acc flag,
    ((splitlinesAux cs acc flag).flatMap String.data) =
      acc.reverse ++ cs.filter (fun ch => !isLineBreak ch) := by
  induction cs with
  | nil =>
    intro acc flag
    cases acc with
    | nil => simp [splitlinesAux]
    | cons a as => simp [splitlinesAux, data_mk]
  | cons c rest ih =>
    intro acc flag
    by_cases h1 : (flag && (c == '\n')) = true
    · obtain ⟨hf, hc⟩ : flag = true ∧ c = '\n' := by simpa using h1
      rw [show splitlinesAux (c :: rest) acc flag = splitlinesAux rest acc false from by
        simp [splitlinesAux, h1]]
      rw [ih acc false]
      simp [hc, List.filter_cons, LF_break]
    · by_cases h2 : isLineBreak c = true
      · rw [show splitlinesAux (c :: rest) acc flag =
            String.mk acc.reverse :: splitlinesAux rest [] (c == '\r') from by
          simp [splitlinesAux, h1, h2]]
        simp only [List.flatMap_cons, data_mk]
        rw [ih [] (c == '\r')]
        simp [List.filter_cons, h2]
      · rw [show splitlinesAux (c :: rest) acc flag =
            splitlinesAux rest (c :: acc) false from by
          simp [splitlinesAux, h1, h2]]
        rw [ih (c :: acc) false]
        simp [List.filter_cons, h2]

/-- Every split line is free of line-terminator characters. -/
lemma splitlinesAux_breakFree (cs : List Char) : ∀ acc flag,
    (∀ a ∈ acc, isLineBreak a = false) →
    ∀ l ∈ splitlinesAux cs acc flag, ∀ ch ∈ l.data, isLineBreak ch = false := by
  induction cs with
  | nil =>
    intro acc flag hacc l hl ch hch
    cases acc with
    | nil => simp [splitlinesAux] at hl
    | cons a as =>
      rw [show splitlinesAux [] (a :: as) flag = [String.mk (a :: as).reverse] from by
        simp [splitlinesAux]] at hl
      rw [List.mem_singleton] at hl
      subst hl
      rw [data_mk] at hch
      exact hacc ch (List.mem_reverse.mp hch)
  | cons c rest ih =>
    intro acc flag hacc l hl ch hch
    by_cases h1 : (flag && (c == '\n')) = true
    · rw [show splitlinesAux (c :: rest) acc flag = splitlinesAux rest acc false from by
        simp [splitlinesAux, h1]] at hl
      exact ih acc false hacc l hl ch hch
    · by_cases h2 : isLineBreak c = true
      · rw [show splitlinesAux (c :: rest) acc flag =
            String.mk acc.reverse :: splitlinesAux rest [] (c == '\r') from by
          simp [splitlinesAux, h1, h2]] at hl
        cases hl with
        | head =>
          rw [data_mk] at hch
          exact hacc ch (List.mem_reverse.mp hch)
        | tail _ hl2 =>
          exact ih [] (c == '\r') (by intro a ha; simp at ha) l hl2 ch hch
      · rw [show splitlinesAux (c :: rest) acc flag =
            splitlinesAux rest (c :: acc) false from by
          simp [splitlinesAux, h1, h2]] at hl
        refine ih (c :: acc) false ?_ l hl ch hch
        intro a ha
        cases ha with
        | head => simpa using h2
        | tail _ ha2 => exact hacc a ha2

/-- Appending a final newline to contents whose last character is not a
line terminator does not change the split. -/
lemma splitlinesAux_append_newline (cs : List Char) : ∀ acc flag (lc : Char),
    cs.getLast? = some lc → isLineBreak lc = false →
    splitlinesAux (cs ++ ['\n']) acc flag = splitlinesAux cs acc flag := by
  induction cs with
  | nil => intro acc flag lc h; simp at h
  | cons c rest ih =>
    intro acc flag lc hlast hbrk
    cases rest with
    | nil =>
      have hc : c = lc := by simpa using hlast
      subst hc
      have hcn : (c == '\n') = false := not_break_ne_LF hbrk
      simp [splitlinesAux, hcn, hbrk, LF_break, LF_not_CR]
    | cons d t =>
      have hlast2 : (d :: t).getLast? = some lc := by
        rw [List.getLast?_cons_cons] at hlast; exact hlast
      by_cases h1 : (flag && (c == '\n')) = true
      · rw [List.cons_append]
        rw [show splitlinesAux (c :: ((d :: t) ++ ['\n'])) acc flag =
            splitlinesAux ((d :: t) ++ ['\n']) acc false from by
          simp [splitlinesAux, h1]]
        rw [show splitlinesAux (c :: (d :: t)) acc flag =
            splitlinesAux (d :: t) acc false from by
          simp [splitlinesAux, h1]]
        exact ih acc false lc hlast2 hbrk
      · by_cases h2 : isLineBreak c = true
        · rw [List.cons_append]
          rw [show splitlinesAux (c :: ((d :: t) ++ ['\n'])) acc flag =
              String.mk acc.reverse :: splitlinesAux ((d :: t) ++ ['\n']) [] (c == '\r') from by
            simp [splitlinesAux, h1, h2]]
          rw [show splitlinesAux (c :: (d :: t)) acc flag =
              String.mk acc.reverse :: splitlinesAux (d :: t) [] (c == '\r') from by
            simp [splitlinesAux, h1, h2]]
          rw [ih [] (c == '\r') lc hlast2 hbrk]
        · rw [List.cons_append]
          rw [show splitlinesAux (c :: ((d :: t) ++ ['\n'])) acc flag =
              splitlinesAux ((d :: t) ++ ['\n']) (c :: acc) false from by
            simp [splitlinesAux, h1, h2]]
          rw [show splitlinesAux (c :: (d :: t)) acc flag =
              splitlinesAux (d :: t) (c :: acc) false from by
            simp [splitlinesAux, h1, h2]]
          exact ih (c :: acc) false lc hlast2 hbrk

/-- String-level version of `splitlinesAux_append_newline`. -/
lemma splitlines_append_newline (c : String) (lc : Char)
    (h1 : c.data.getLast? = some lc) (h2 : isLineBreak lc = false) :
    splitlines (c ++ "\n") = splitlines c := by
  unfold splitlines
  rw [show (c ++ "\n").data = c.data ++ ['\n'] from rfl]
  exact splitlinesAux_append_newline c.data [] false lc h1 h2

/-- Evaluating `main` on the filesystem holding exactly the two inputs. -/
lemma main_mkFs (c1 c2 : String) :
    main (mkFs c1 c2) = Except.ok
      [("out1 - out2:", lineSet c1 \ lineSet c2),
       ("out2 - out1:", lineSet c2 \ lineSet c1)] := rfl

/-! Claim theorems. -/

/-- C1: whenever both input files are readable, the program prints exactly
two records, in order: the label "out1 - out2:" with the set A − B, then
the label "out2 - out1:" with the set B − A, where A and B are the
LineSets of the two contents. -/
theorem main_prints_two_labelled_sets (c1 c2 : String)
    (fs : String → Option String)
    (h1 : fs "out1" = some c1) (h2 : fs "out2" = some c2) :
    main fs = Except.ok
      [("out1 - out2:", lineSet c1 \ lineSet c2),
       ("out2 - out1:", lineSet c2 \ lineSet c1)] := by
  unfold main
  rw [h1, h2]

/-- Witness for C1 at concrete file contents. -/
theorem main_prints_two_labelled_sets_witness :
    main (mkFs "a\nb" "b\nc") = Except.ok
      [("out1 - out2:", lineSet "a\nb" \ lineSet "b\nc"),
       ("out2 - out1:", lineSet "b\nc" \ lineSet "a\nb")] :=
  main_prints_two_labelled_sets "a\nb" "b\nc" (mkFs "a\nb" "b\nc") rfl rfl

/-- C2: the two reported sets together with the shared lines account for
every distinct line of either file: onlyA ∪ onlyB ∪ (A ∩ B) = A ∪ B. -/
theorem reported_sets_account_for_all_lines (c1 c2 : String)
    (fs : String → Option String)
    (h1 : fs "out1" = some c1) (h2 : fs "out2" = some c2) :
    ∃ onlyA onlyB,
      main fs = Except.ok [("out1 - out2:", onlyA), ("out2 - out1:", onlyB)] ∧
      onlyA ∪ onlyB ∪ (lineSet c1 ∩ lineSet c2) = lineSet c1 ∪ lineSet c2 := by
  refine ⟨lineSet c1 \ lineSet c2, lineSet c2 \ lineSet c1, ?_, ?_⟩
  · unfold main; rw [h1, h2]
  · ext x
    simp only [Finset.mem_union, Finset.mem_sdiff, Finset.mem_inter]
    tauto

/-- Witness for C2 at concrete file contents. -/
theorem reported_sets_account_for_all_lines_witness :
    ∃ onlyA onlyB,
      main (mkFs "a\nb" "b\nc") =
        Except.ok [("out1 - out2:", onlyA), ("out2 - out1:", onlyB)] ∧
      onlyA ∪ onlyB ∪ (lineSet "a\nb" ∩ lineSet "b\nc") =
        lineSet "a\nb" ∪ lineSet "b\nc" :=
  reported_sets_account_for_all_lines "a\nb" "b\nc" (mkFs "a\nb" "b\nc") rfl rfl

/-- C3: the two reported difference sets are disjoint: no line appears in
both printed sets. -/
theorem reported_sets_disjoint (c1 c2 : String)
    (fs : String → Option String)
    (h1 : fs "out1" = some c1) (h2 : fs "out2" = some c2) :
    ∃ onlyA onlyB,
      main fs = Except.ok [("out1 - out2:", onlyA), ("out2 - out1:", onlyB)] ∧
      onlyA ∩ onlyB = ∅ := by
  refine ⟨lineSet c1 \ lineSet c2, lineSet c2 \ lineSet c1, ?_, ?_⟩
  · unfold main; rw [h1, h2]
  · ext x
    simp only [Finset.mem_inter, Finset.mem_sdiff, Finset.not_mem_empty, iff_false]
    tauto

/-- Witness for C3 at concrete file contents. -/
theorem reported_sets_disjoint_witness :
    ∃ onlyA onlyB,
      main (mkFs "a\nb" "b\nc") =
        Except.ok [("out1 - out2:", onlyA), ("out2 - out1:", onlyB)] ∧
      onlyA ∩ onlyB = ∅ :=
  reported_sets_disjoint "a\nb" "b\nc" (mkFs "a\nb" "b\nc") rfl rfl

/-- C5: swapping the contents of the two files swaps the two reported
sets. -/
theorem swapping_inputs_swaps_outputs (c1 c2 : String) :
    ∃ sA sB,
      main (mkFs c1 c2) =
        Except.ok [("out1 - out2:", sA), ("out2 - out1:", sB)] ∧
      main (mkFs c2 c1) =
        Except.ok [("out1 - out2:", sB), ("out2 - out1:", sA)] := by
  refine ⟨lineSet c1 \ lineSet c2, lineSet c2 \ lineSet c1, ?_, ?_⟩ <;>
    simp [main, mkFs]

/-- C6: if either file cannot be read, the run fails with a
FileAccessError and prints nothing. -/
theorem missing_file_fails_without_output (fs : String → Option String)
    (h : fs "out1" = none ∨ fs "out2" = none) :
    (∃ e, main fs = Except.error e) ∧ outputLines (main fs) = [] := by
  rcases h with h | h
  · have hm : main fs = Except.error (FileAccessError.cannotRead "out1") := by
      unfold main; rw [h]
    exact ⟨⟨_, hm⟩, by rw [hm]; rfl⟩
  · cases hx : fs "out1" with
    | none =>
      have hm : main fs = Except.error (FileAccessError.cannotRead "out1") := by
        unfold main; rw [hx]
      exact ⟨⟨_, hm⟩, by rw [hm]; rfl⟩
    | some c1 =>
      have hm : main fs = Except.error (FileAccessError.cannotRead "out2") := by
        unfold main; rw [hx, h]
      exact ⟨⟨_, hm⟩, by rw [hm]; rfl⟩

/-- Witness for C6 on the empty filesystem. -/
theorem missing_file_fails_without_output_witness :
    (∃ e, main (fun _ => none) = Except.error e) ∧
      outputLines (main (fun _ => none)) = [] :=
  missing_file_fails_without_output (fun _ => none) (Or.inl rfl)

/-- C9: the dead symmetric-difference computation can be removed without
changing the result of any run. -/
theorem symmetric_difference_is_dead_code (fs : String → Option String) :
    main fs = mainNoDiff fs := by
  cases hx : fs "out1" with
  | none => simp [main, mainNoDiff, hx]
  | some c1 =>
    cases hy : fs "out2" with
    | none => simp [main, mainNoDiff, hx, hy]
    | some c2 => simp [main, mainNoDiff, hx, hy]

/-- C10: an empty file has an empty LineSet, so against an empty out1 the
first reported set is empty and the second is all of out2's LineSet, and
symmetrically. -/
theorem empty_file_edge_case (c : String) :
    main (mkFs "" c) = Except.ok
      [("out1 - out2:", (∅ : Finset String)), ("out2 - out1:", lineSet c)] ∧
    main (mkFs c "") = Except.ok
      [("out1 - out2:", lineSet c), ("out2 - out1:", (∅ : Finset String))] := by
  have h0 : lineSet "" = ∅ := rfl
  constructor <;> simp [main, mkFs, h0]

/-- C4: a line repeated n ≥ 1 times in a file is exactly one member of its
LineSet, and replacing the n repetitions by a single occurrence leaves the
program's output unchanged. -/
theorem duplicate_lines_collapse (x : String) (pre post : List String)
    (n : ℕ) (hn : 1 ≤ n) (hx : breakFree x = true)
    (hpre : ∀ l ∈ pre, breakFree l = true)
    (hpost : ∀ l ∈ post, breakFree l = true) (c2 : String) :
    Multiset.count x
      (lineSet (joinLines (pre ++ List.replicate n x ++ post))).val = 1 ∧
    main (mkFs (joinLines (pre ++ List.replicate n x ++ post)) c2) =
      main (mkFs (joinLines (pre ++ [x] ++ post)) c2) := by
  have hall : ∀ l ∈ pre ++ List.replicate n x ++ post, breakFree l = true := by
    intro l hl
    rcases List.mem_append.mp hl with h | h
    · rcases List.mem_append.mp h with h | h
      · exact hpre l h
      · rw [List.eq_of_mem_replicate h]; exact hx
    · exact hpost l h
  have hall2 : ∀ l ∈ pre ++ [x] ++ post, breakFree l = true := by
    intro l hl
    rcases List.mem_append.mp hl with h | h
    · rcases List.mem_append.mp h with h | h
      · exact hpre l h
      · rw [List.mem_singleton.mp h]; exact hx
    · exact hpost l h
  have hs1 : lineSet (joinLines (pre ++ List.replicate n x ++ post)) =
      (pre ++ List.replicate n x ++ post).toFinset :=
    lineSet_joinLines _ hall
  have hs2 : lineSet (joinLines (pre ++ [x] ++ post)) =
      (pre ++ [x] ++ post).toFinset :=
    lineSet_joinLines _ hall2
  have hn0 : n ≠ 0 := by omega
  have hfin : (pre ++ List.replicate n x ++ post).toFinset =
      (pre ++ [x] ++ post).toFinset := by
    ext y
    simp only [List.mem_toFinset, List.mem_append, List.mem_replicate,
      List.mem_singleton, hn0, ne_eq, not_false_eq_true, true_and]
  constructor
  · rw [hs1]
    refine Multiset.count_eq_one_of_mem (Finset.nodup _) ?_
    rw [← Finset.mem_def]
    rw [List.mem_toFinset]
    exact List.mem_append.mpr (Or.inl (List.mem_append.mpr
      (Or.inr (List.mem_replicate.mpr ⟨by omega, rfl⟩))))
  · have hls : lineSet (joinLines (pre ++ List.replicate n x ++ post)) =
        lineSet (joinLines (pre ++ [x] ++ post)) := by rw [hs1, hs2, hfin]
    rw [main_mkFs, main_mkFs, hls]

/-- Witness for C4: the line "a" occurring three times. -/
theorem duplicate_lines_collapse_witness :
    Multiset.count "a"
      (lineSet (joinLines (["p"] ++ List.replicate 3 "a" ++ ["q"]))).val = 1 ∧
    main (mkFs (joinLines (["p"] ++ List.replicate 3 "a" ++ ["q"])) "z") =
      main (mkFs (joinLines (["p"] ++ ["a"] ++ ["q"])) "z") :=
  duplicate_lines_collapse "a" ["p"] ["q"] 3 (by decide) (by decide)
    (by decide) (by decide) "z"

/-- C7 counterexample: "a\n" and "a\n\n" differ only in one final newline
yet have different LineSets ({"a"} versus {"a", ""}), refuting the claim
that contents differing only in a final newline always yield equal
LineSets. -/
theorem trailing_newline_equiv_cex :
    lineSet ("a\n" ++ "\n") ≠ lineSet "a\n" ∧
    lineSet ("a\n" ++ "\n") = {"a", ""} ∧ lineSet "a\n" = {"a"} := by
  refine ⟨?_, by decide, by decide⟩
  decide

/-- C7 amended: appending one final newline to nonempty contents whose
last character is not a line terminator leaves the LineSet unchanged, and
for a single break-free line x the contents x ++ "\n" yield exactly
the LineSet consisting of x. -/
theorem trailing_newline_insensitive (c : String) (lc : Char)
    (h1 : c.data.getLast? = some lc) (h2 : isLineBreak lc = false) :
    lineSet (c ++ "\n") = lineSet c ∧
      (breakFree c = true → lineSet (c ++ "\n") = {c}) := by
  constructor
  · unfold lineSet
    rw [splitlines_append_newline c lc h1 h2]
  · intro hbf
    have hjoin : joinLines [c] = c ++ "\n" := by
      show c ++ "\n" ++ "" = c ++ "\n"
      apply congrArg String.mk (?_ : (c ++ "\n" ++ "").data = (c ++ "\n").data)
      simp [data_append]
    rw [← hjoin, lineSet_joinLines [c] (by intro l hl; rw [List.mem_singleton.mp hl]; exact hbf)]
    rfl

/-- Witness for C7's amended statement at contents "ab". -/
theorem trailing_newline_insensitive_witness :
    lineSet ("ab" ++ "\n") = lineSet "ab" ∧
      (breakFree "ab" = true → lineSet ("ab" ++ "\n") = {"ab"}) :=
  trailing_newline_insensitive "ab" 'b' (by decide) (by decide)

/-- C8 counterexample: the contents "a", VT, "b" contain no LF and no CR,
yet are split at the vertical tab into two lines, so a line-splitting
boundary need not correspond to a platform newline. -/
theorem boundary_not_newline_cex :
    (∀ ch ∈ (String.mk ['a', '\x0b', 'b']).data, ch ≠ '\n' ∧ ch ≠ '\r') ∧
    splitlines (String.mk ['a', '\x0b', 'b']) ≠
      [String.mk ['a', '\x0b', 'b']] ∧
    splitlines (String.mk ['a', '\x0b', 'b']) = ["a", "b"] := by
  refine ⟨by decide, ?_, by decide⟩
  decide

/-- C8 amended: line boundaries are exactly the characters of the
`str.splitlines` terminator set (LF, CR, CRLF, VT, FF, FS, GS, RS, NEL,
LS, PS): concatenating the split lines returns the contents with
precisely its terminator characters removed, and no split line contains a
terminator character. -/
theorem boundaries_are_terminator_chars (cs : List Char) :
    ((splitlines (String.mk cs)).flatMap String.data) =
      cs.filter (fun ch => !isLineBreak ch) ∧
    ∀ l ∈ splitlines (String.mk cs), ∀ ch ∈ l.data,
      isLineBreak ch = false := by
  constructor
  · unfold splitlines
    rw [data_mk, splitlinesAux_flat cs [] false]
    simp
  · unfold splitlines
    rw [data_mk]
    exact splitlinesAux_breakFree cs [] false (by intro a ha; simp at ha)

end DiffPy
